import Mathlib

/-!
Verification of `src/contracts/genXML.py`: a script that reads a fixed list
of Solidity source files, wraps each file's text in a `<document>` envelope,
concatenates the envelopes under one `<documents>` root, and writes the
result to `contracts.xml`.

The filesystem is modelled as a partial map from path to file text,
`String → Option String`; `none` models any failed read (missing file,
permission denial, decode error), all of which raise uncaught in the script.
-/

/-- Fixed filename list, lines 3-12 of the script. -/
def contracts : List String :=
  ["Account.sol", "Arbitration.sol", "Escrow.sol", "Offer.sol",
   "Rating.sol", "Reputation.sol", "Trade.sol", "ContractRegistry.sol"]

/-- Whether a path is absolute (begins with a slash), as posix path joining
distinguishes it. -/
def isAbsolute (file : String) : Bool :=
  match file.data with
  | [] => false
  | ch :: _ => ch = '/'

/-- Posix `os.path.join` for the two-argument call at line 17 of the script:
an absolute second argument is returned unchanged, otherwise it is resolved
against the directory. -/
def osPathJoin (dir file : String) : String :=
  if isAbsolute file then file else dir ++ "/" ++ file

/-- One `<document>` fragment exactly as assembled by lines 20-23 of the
loop body: tab-indented tags, the 1-based index printed in decimal, the
filename and the raw file text inserted verbatim with no escaping. -/
def docFragment (index : Nat) (contract content : String) : String :=
  "\t<document index=\"" ++ toString index ++ "\">\n" ++
  "\t\t<source>" ++ contract ++ "</source>\n" ++
  "\t\t<document_content>" ++ content ++ "</document_content>\n" ++
  "\t</document>\n"

/-- The accumulation loop of lines 16-24: `acc` plays `xml_content`, `index`
the 1-based counter of `enumerate(contracts, start=1)`. Each file is read at
`os.path.join('.', contract)`; a failed read aborts the whole run (the
exception propagates uncaught), yielding `none`. -/
def bundleLoop (fs : String → Option String) : String → Nat → List String → Option String
  | acc, _, [] => some acc
  | acc, index, contract :: rest =>
    match fs (osPathJoin "." contract) with
    | none => none
    | some content =>
      bundleLoop fs (acc ++ docFragment index contract content) (index + 1) rest

/-- The whole string assembly of lines 14-25: start from `"<documents>\n"`,
run the loop with the index starting at 1, then append the closing root tag.
`none` means the run raised before any output was assembled. -/
def genXML (fs : String → Option String) (cs : List String) : Option String :=
  (bundleLoop fs "<documents>\n" 1 cs).map (fun s => s ++ "</documents>")

/-- Effect of a full script run on the filesystem (lines 14-28): every read
happens before `contracts.xml` is opened for writing, so on any read failure
the filesystem is untouched, and on success exactly the entry
`contracts.xml` is created or fully overwritten with the assembled string. -/
def runFS (fs : String → Option String) (cs : List String) : String → Option String :=
  fun name =>
    match genXML fs cs with
    | none => fs name
    | some out => if name = "contracts.xml" then some out else fs name

/-- Reading every listed file in order; `none` when any single read fails. -/
def readAll (fs : String → Option String) : List String → Option (List String)
  | [] => some []
  | contract :: rest =>
    (fs (osPathJoin "." contract)).bind fun content =>
      (readAll fs rest).map fun contents => content :: contents

/-- Concatenation of the document fragments for the given
(filename, content) pairs, indices counting up from `index`. -/
def docsBody : Nat → List (String × String) → String
  | _, [] => ""
  | index, (contract, content) :: rest =>
    docFragment index contract content ++ docsBody (index + 1) rest

/-- Plain concatenation of a list of strings. -/
def joinAll : List String → String
  | [] => ""
  | s :: rest => s ++ joinAll rest

/-- Concrete filesystem for the two-file scenario of the spec: `A.sol` and
`B.sol` present in the working directory, nothing else readable. -/
def fsAB : String → Option String := fun path =>
  if path = "./A.sol" then some "contract A \x7b\x7d"
  else if path = "./B.sol" then some "contract B \x7b\x7d"
  else none

/-- The exact output the spec's two-file scenario expects. -/
def expectedAB : String :=
  "<documents>\n\t<document index=\"1\">\n\t\t<source>A.sol</source>\n\t\t<document_content>contract A \x7b\x7d</document_content>\n\t</document>\n\t<document index=\"2\">\n\t\t<source>B.sol</source>\n\t\t<document_content>contract B \x7b\x7d</document_content>\n\t</document>\n</documents>"

/-- A filesystem holding only a stale `contracts.xml`; every listed source
file is missing, so any run over a non-empty list fails. -/
def fsStale : String → Option String := fun path =>
  if path = "contracts.xml" then some "stale previous output" else none

/-- The two-file filesystem with one extra unlisted file and a different
pre-existing `contracts.xml`, for the independence witnesses. -/
def fsABextra : String → Option String := fun path =>
  if path = "./junk.txt" then some "junk"
  else if path = "contracts.xml" then some "old output"
  else fsAB path

/-- A filesystem giving each of the eight listed contract files a content. -/
def fsEight : String → Option String := fun path =>
  if contracts.any (fun c => osPathJoin "." c = path) then some "pragma solidity;"
  else none

/-- `fsEight` plus an unrelated extra file. -/
def fsEightExtra : String → Option String := fun path =>
  if path = "./README.md" then some "docs" else fsEight path

/-- C4: for the input list `["A.sol", "B.sol"]` with the given file
contents, the complete output string is exactly the spec's expected
bundle. -/
theorem genXML_concrete_two_file_scenario :
    genXML fsAB ["A.sol", "B.sol"] = some expectedAB := by
  rfl

/-- C5 counterexample: on the empty filename list the code emits a newline
between the root tags (line 14 initialises `xml_content` with a trailing
newline), so the output is not the claimed `<documents></documents>`. -/
theorem genXML_empty_list_claim_false :
    genXML (fun _ => none) [] = some "<documents>\n</documents>" ∧
    some "<documents>\n</documents>" ≠ some ("<documents>" ++ "</documents>") := by
  constructor
  · rfl
  · decide

/-- C5 (amended): for the empty filename list, on any filesystem, the output
string is exactly `<documents>` + newline + `</documents>`. -/
theorem genXML_empty_list_output (fs : String → Option String) :
    genXML fs [] = some "<documents>\n</documents>" := by
  rfl

theorem readAll_cons_eq_some {fs : String → Option String} {c : String}
    {rest ts : List String} (h : readAll fs (c :: rest) = some ts) :
    ∃ content contents, fs (osPathJoin "." c) = some content ∧
      readAll fs rest = some contents ∧ ts = content :: contents := by
  simp only [readAll, Option.bind_eq_some, Option.map_eq_some'] at h
  obtain ⟨content, hc, contents, hr, hts⟩ := h
  exact ⟨content, contents, hc, hr, hts.symm⟩

theorem readAll_length (fs : String → Option String) :
    ∀ (cs ts : List String), readAll fs cs = some ts → ts.length = cs.length := by
  intro cs
  induction cs with
  | nil =>
    intro ts h
    simp only [readAll, Option.some.injEq] at h
    subst h
    rfl
  | cons c rest ih =>
    intro ts h
    obtain ⟨content, contents, _, hr, hts⟩ := readAll_cons_eq_some h
    subst hts
    simp [ih contents hr]

theorem readAll_get (fs : String → Option String) :
    ∀ (cs ts : List String), readAll fs cs = some ts →
      ∀ (i : Nat) (h1 : i < cs.length) (h2 : i < ts.length),
        fs (osPathJoin "." cs[i]) = some ts[i] := by
  intro cs
  induction cs with
  | nil =>
    intro ts h i h1 h2
    exact absurd h1 (by simp)
  | cons c rest ih =>
    intro ts h i h1 h2
    obtain ⟨content, contents, hc, hr, hts⟩ := readAll_cons_eq_some h
    subst hts
    cases i with
    | zero => simpa using hc
    | succ j =>
      have hj1 : j < rest.length := Nat.lt_of_succ_lt_succ h1
      have hj2 : j < contents.length := Nat.lt_of_succ_lt_succ h2
      simpa using ih contents hr j hj1 hj2

theorem bundleLoop_eq_docsBody (fs : String → Option String) :
    ∀ (cs ts : List String) (acc : String) (index : Nat),
      readAll fs cs = some ts →
      bundleLoop fs acc index cs = some (acc ++ docsBody index (cs.zip ts)) := by
  intro cs
  induction cs with
  | nil =>
    intro ts acc index h
    simp only [readAll, Option.some.injEq] at h
    subst h
    simp [bundleLoop, docsBody]
  | cons c rest ih =>
    intro ts acc index h
    obtain ⟨content, contents, hc, hr, hts⟩ := readAll_cons_eq_some h
    subst hts
    simp only [bundleLoop, hc]
    rw [ih contents (acc ++ docFragment index c content) (index + 1) hr]
    simp only [List.zip_cons_cons, docsBody, String.append_assoc]
    rfl

theorem genXML_eq_docsBody {fs : String → Option String} {cs ts : List String}
    (h : readAll fs cs = some ts) :
    genXML fs cs = some ("<documents>\n" ++ docsBody 1 (cs.zip ts) ++ "</documents>") := by
  simp [genXML, bundleLoop_eq_docsBody fs cs ts "<documents>\n" 1 h, String.append_assoc]

theorem bundleLoop_none_of_missing (fs : String → Option String) :
    ∀ (cs : List String) (c : String), c ∈ cs → fs (osPathJoin "." c) = none →
      ∀ (acc : String) (index : Nat), bundleLoop fs acc index cs = none := by
  intro cs
  induction cs with
  | nil =>
    intro c hc
    exact absurd hc (by simp)
  | cons c0 rest ih =>
    intro c hc hm acc index
    rcases List.mem_cons.mp hc with heq | hmem
    · subst heq
      simp [bundleLoop, hm]
    · cases hfc : fs (osPathJoin "." c0) with
      | none => simp [bundleLoop, hfc]
      | some content =>
        simp only [bundleLoop, hfc]
        exact ih c hmem hm _ _

theorem genXML_none_of_missing {fs : String → Option String} {cs : List String}
    {c : String} (hc : c ∈ cs) (hm : fs (osPathJoin "." c) = none) :
    genXML fs cs = none := by
  simp [genXML, bundleLoop_none_of_missing fs cs c hc hm]

theorem docsBody_eq_joinAll :
    ∀ (pairs : List (String × String)) (index : Nat),
      docsBody index pairs =
        joinAll ((pairs.enumFrom index).map fun p => docFragment p.1 p.2.1 p.2.2) := by
  intro pairs
  induction pairs with
  | nil => intro index; rfl
  | cons p rest ih =>
    intro index
    cases p with
    | mk contract content =>
      simp only [docsBody, List.enumFrom, List.map, joinAll]
      rw [ih (index + 1)]

theorem docsBody_split :
    ∀ (pairs : List (String × String)) (j : Nat) (h : j < pairs.length) (index : Nat),
      ∃ pre post, docsBody index pairs =
        pre ++ (docFragment (index + j) pairs[j].1 pairs[j].2 ++ post) := by
  intro pairs
  induction pairs with
  | nil =>
    intro j h
    exact absurd h (by simp)
  | cons p rest ih =>
    intro j h index
    cases j with
    | zero =>
      refine ⟨"", docsBody (index + 1) rest, ?_⟩
      cases p with
      | mk contract content =>
        simp [docsBody, String.empty_append]
    | succ j0 =>
      have hj0 : j0 < rest.length := Nat.lt_of_succ_lt_succ h
      obtain ⟨pre, post, hsplit⟩ := ih j0 hj0 (index + 1)
      refine ⟨docFragment index p.1 p.2 ++ pre, post, ?_⟩
      cases p with
      | mk contract content =>
        simp only [docsBody, List.getElem_cons_succ]
        rw [hsplit]
        have hidx : index + 1 + j0 = index + (j0 + 1) := by omega
        rw [hidx, String.append_assoc]

theorem bundleLoop_congr (fs1 fs2 : String → Option String) :
    ∀ (cs : List String),
      (∀ c ∈ cs, fs1 (osPathJoin "." c) = fs2 (osPathJoin "." c)) →
      ∀ (acc : String) (index : Nat),
        bundleLoop fs1 acc index cs = bundleLoop fs2 acc index cs := by
  intro cs
  induction cs with
  | nil => intro _ acc index; rfl
  | cons c rest ih =>
    intro h acc index
    have hc : fs1 (osPathJoin "." c) = fs2 (osPathJoin "." c) := h c (by simp)
    simp only [bundleLoop, hc]
    cases fs2 (osPathJoin "." c) with
    | none => rfl
    | some content =>
      exact ih (fun c0 hc0 => h c0 (List.mem_cons_of_mem c hc0)) _ _

theorem genXML_congr {fs1 fs2 : String → Option String} {cs : List String}
    (h : ∀ c ∈ cs, fs1 (osPathJoin "." c) = fs2 (osPathJoin "." c)) :
    genXML fs1 cs = genXML fs2 cs := by
  simp [genXML, bundleLoop_congr fs1 fs2 cs h]

/-- C1: for every input list whose files all read successfully, the output
wraps exactly one `<document>` fragment per input file under the
`<documents>` root, emitted in input-list order, and the fragments carry the
index attributes 1..N in exactly that order. -/
theorem genXML_one_document_per_file_in_order (fs : String → Option String)
    (cs ts : List String) (h : readAll fs cs = some ts) :
    ts.length = cs.length ∧
    genXML fs cs = some ("<documents>\n" ++
      joinAll (((cs.zip ts).enumFrom 1).map fun p => docFragment p.1 p.2.1 p.2.2) ++
      "</documents>") ∧
    ((cs.zip ts).enumFrom 1).map Prod.fst = List.range' 1 cs.length := by
  have hlen := readAll_length fs cs ts h
  refine ⟨hlen, ?_, ?_⟩
  · rw [genXML_eq_docsBody h, docsBody_eq_joinAll]
  · rw [List.enumFrom_map_fst, List.length_zip, hlen, Nat.min_self]

/-- C1 witness: the two-file scenario instantiates the theorem, every
hypothesis discharged by computation. -/
theorem genXML_one_document_per_file_in_order_witness :
    (["contract A \x7b\x7d", "contract B \x7b\x7d"] : List String).length =
      (["A.sol", "B.sol"] : List String).length ∧
    genXML fsAB ["A.sol", "B.sol"] = some ("<documents>\n" ++
      joinAll (((["A.sol", "B.sol"].zip
        ["contract A \x7b\x7d", "contract B \x7b\x7d"]).enumFrom 1).map
          fun p => docFragment p.1 p.2.1 p.2.2) ++ "</documents>") ∧
    ((["A.sol", "B.sol"].zip
        ["contract A \x7b\x7d", "contract B \x7b\x7d"]).enumFrom 1).map Prod.fst =
      List.range' 1 (["A.sol", "B.sol"] : List String).length :=
  genXML_one_document_per_file_in_order fsAB ["A.sol", "B.sol"]
    ["contract A \x7b\x7d", "contract B \x7b\x7d"] rfl

/-- C2: for every successfully read input file, the output places the file's
full text verbatim between `<document_content>` and `</document_content>`,
with no alteration and no escaping. -/
theorem genXML_content_verbatim (fs : String → Option String)
    (cs ts : List String) (h : readAll fs cs = some ts)
    (i : Nat) (h1 : i < cs.length) (h2 : i < ts.length) :
    fs (osPathJoin "." cs[i]) = some ts[i] ∧
    ∃ pre post, genXML fs cs =
      some (pre ++ ("<document_content>" ++ ts[i] ++ "</document_content>") ++ post) := by
  refine ⟨readAll_get fs cs ts h i h1 h2, ?_⟩
  have hp : i < (cs.zip ts).length := by
    rw [List.length_zip]
    omega
  obtain ⟨pre0, post0, hsplit⟩ := docsBody_split (cs.zip ts) i hp 1
  have hzip : (cs.zip ts)[i] = (cs[i], ts[i]) := List.getElem_zip
  refine ⟨"<documents>\n" ++ pre0 ++ ("\t<document index=\"" ++ toString (1 + i) ++
      "\">\n" ++ "\t\t<source>" ++ cs[i] ++ "</source>\n" ++ "\t\t"),
    ("\n" ++ "\t</document>\n" ++ post0) ++ "</documents>", ?_⟩
  have e1 : ("\t\t<document_content>" : String) = "\t\t" ++ "<document_content>" := rfl
  have e2 : ("</document_content>\n" : String) = "</document_content>" ++ "\n" := rfl
  rw [genXML_eq_docsBody h, hsplit, hzip]
  simp only [docFragment, e1, e2, String.append_assoc]

/-- C2 witness: the first file of the two-file scenario. -/
theorem genXML_content_verbatim_witness :
    fsAB (osPathJoin "." "A.sol") = some "contract A \x7b\x7d" ∧
    ∃ pre post, genXML fsAB ["A.sol", "B.sol"] =
      some (pre ++ ("<document_content>" ++ "contract A \x7b\x7d" ++
        "</document_content>") ++ post) :=
  genXML_content_verbatim fsAB ["A.sol", "B.sol"]
    ["contract A \x7b\x7d", "contract B \x7b\x7d"] rfl 0 (by decide) (by decide)

/-- C3: for every input filename, the corresponding `<document>` fragment
places the filename exactly as supplied in the list between `<source>` and
`</source>`, with no directory prefix, even though the read itself resolves
the name against the base directory. -/
theorem genXML_source_is_filename (fs : String → Option String)
    (cs ts : List String) (h : readAll fs cs = some ts)
    (i : Nat) (h1 : i < cs.length) (h2 : i < ts.length) :
    ∃ pre post, genXML fs cs =
      some (pre ++ ("<source>" ++ cs[i] ++ "</source>") ++ post) := by
  have hp : i < (cs.zip ts).length := by
    rw [List.length_zip]
    omega
  obtain ⟨pre0, post0, hsplit⟩ := docsBody_split (cs.zip ts) i hp 1
  have hzip : (cs.zip ts)[i] = (cs[i], ts[i]) := List.getElem_zip
  refine ⟨"<documents>\n" ++ pre0 ++ ("\t<document index=\"" ++ toString (1 + i) ++
      "\">\n" ++ "\t\t"),
    ("\n" ++ ("\t\t<document_content>" ++ ts[i] ++ "</document_content>\n") ++
      "\t</document>\n" ++ post0) ++ "</documents>", ?_⟩
  have e1 : ("\t\t<source>" : String) = "\t\t" ++ "<source>" := rfl
  have e2 : ("</source>\n" : String) = "</source>" ++ "\n" := rfl
  rw [genXML_eq_docsBody h, hsplit, hzip]
  simp only [docFragment, e1, e2, String.append_assoc]

/-- C3 witness: the second file of the two-file scenario. -/
theorem genXML_source_is_filename_witness :
    ∃ pre post, genXML fsAB ["A.sol", "B.sol"] =
      some (pre ++ ("<source>" ++ "B.sol" ++ "</source>") ++ post) :=
  genXML_source_is_filename fsAB ["A.sol", "B.sol"]
    ["contract A \x7b\x7d", "contract B \x7b\x7d"] rfl 1 (by decide) (by decide)

/-- C6: if any one listed file is missing (its read fails), the run fails —
`genXML` yields no output rather than a document list shortened by the
missing file — and the output file is not produced or touched. -/
theorem genXML_missing_file_aborts (fs : String → Option String)
    (cs : List String) (c : String) (hc : c ∈ cs)
    (hm : fs (osPathJoin "." c) = none) :
    genXML fs cs = none ∧ runFS fs cs "contracts.xml" = fs "contracts.xml" := by
  have hnone := genXML_none_of_missing hc hm
  exact ⟨hnone, by simp [runFS, hnone]⟩

/-- C6 witness: over the fixed contract list with every source file missing,
the run fails and the stale output entry is untouched. -/
theorem genXML_missing_file_aborts_witness :
    genXML fsStale contracts = none ∧
    runFS fsStale contracts "contracts.xml" = fsStale "contracts.xml" :=
  genXML_missing_file_aborts fsStale contracts "Account.sol" (by decide) rfl

/-- C7: when reading any listed input file fails, the whole filesystem —
in particular any pre-existing content at `contracts.xml` — is left exactly
as it was, because every read completes before the output is opened for
writing. -/
theorem runFS_read_failure_leaves_fs_unchanged (fs : String → Option String)
    (cs : List String) (c : String) (hc : c ∈ cs)
    (hm : fs (osPathJoin "." c) = none) (name : String) :
    runFS fs cs name = fs name := by
  simp [runFS, genXML_none_of_missing hc hm]

/-- C7 witness: the stale `contracts.xml` content survives a failed run. -/
theorem runFS_read_failure_leaves_fs_unchanged_witness :
    runFS fsStale contracts "contracts.xml" = some "stale previous output" :=
  (runFS_read_failure_leaves_fs_unchanged fsStale contracts "Account.sol"
    (by decide) rfl "contracts.xml").trans rfl

/-- C8: on a successful run the output file holds exactly the assembled
bundle, whatever it held before (full replacement, no append or merge), and
no entry other than `contracts.xml` changes. -/
theorem runFS_success_overwrites_output (fs : String → Option String)
    (cs : List String) (out : String) (h : genXML fs cs = some out) :
    runFS fs cs "contracts.xml" = some out ∧
    ∀ name, name ≠ "contracts.xml" → runFS fs cs name = fs name := by
  constructor
  · simp [runFS, h]
  · intro name hname
    simp [runFS, h, hname]

/-- C8 witness: a filesystem with an old `contracts.xml` gets it replaced by
the assembled bundle, while an unrelated file is untouched. -/
theorem runFS_success_overwrites_output_witness :
    runFS fsABextra ["A.sol", "B.sol"] "contracts.xml" = some expectedAB ∧
    runFS fsABextra ["A.sol", "B.sol"] "./junk.txt" = fsABextra "./junk.txt" :=
  ⟨(runFS_success_overwrites_output fsABextra ["A.sol", "B.sol"] expectedAB rfl).1,
   (runFS_success_overwrites_output fsABextra ["A.sol", "B.sol"] expectedAB rfl).2
     "./junk.txt" (by decide)⟩

/-- C9: the bundler is deterministic — two runs over the same filename list
whose listed files have the same content assemble the same string, and when
the run succeeds they write byte-identical output files. -/
theorem genXML_deterministic (fs1 fs2 : String → Option String)
    (cs : List String)
    (h : ∀ c ∈ cs, fs1 (osPathJoin "." c) = fs2 (osPathJoin "." c)) :
    genXML fs1 cs = genXML fs2 cs ∧
    ∀ out, genXML fs1 cs = some out →
      runFS fs1 cs "contracts.xml" = runFS fs2 cs "contracts.xml" := by
  have hg := genXML_congr h
  refine ⟨hg, ?_⟩
  intro out h1
  simp [runFS, h1, hg.symm.trans h1]

/-- C9 witness: two filesystems agreeing on the two listed files, one with
extra unrelated entries, assemble and write the same bundle. -/
theorem genXML_deterministic_witness :
    genXML fsAB ["A.sol", "B.sol"] = genXML fsABextra ["A.sol", "B.sol"] ∧
    runFS fsAB ["A.sol", "B.sol"] "contracts.xml" =
      runFS fsABextra ["A.sol", "B.sol"] "contracts.xml" :=
  ⟨(genXML_deterministic fsAB fsABextra ["A.sol", "B.sol"] (by decide)).1,
   (genXML_deterministic fsAB fsABextra ["A.sol", "B.sol"] (by decide)).2
     expectedAB rfl⟩

/-- C10: over the fixed eight-file contract list, the output depends only on
the contents of the listed files — any two filesystems agreeing on those
eight reads produce identical output, whatever other files hold. -/
theorem genXML_depends_only_on_listed_files (fs1 fs2 : String → Option String)
    (h : ∀ c ∈ contracts, fs1 (osPathJoin "." c) = fs2 (osPathJoin "." c)) :
    genXML fs1 contracts = genXML fs2 contracts :=
  genXML_congr h

/-- C10 witness: adding an unlisted file leaves the output unchanged. -/
theorem genXML_depends_only_on_listed_files_witness :
    genXML fsEight contracts = genXML fsEightExtra contracts :=
  genXML_depends_only_on_listed_files fsEight fsEightExtra (by decide)
